import Mathlib

/-!
Verification of the drover task-orchestration engine.

This file contains a shallow embedding of the core data model and
operations of the drover repository:

* the `Task` data model and `TaskStatus` lifecycle set (src/drover/mod.rs),
* the claim registry `WorkerStateInner` with `claim_task` / `release_task` /
  `ready_count` (src/workers/mod.rs),
* the worker outcome translation and blocker extraction
  (src/workers/mod.rs, `spawn_workers` / `extract_blockers`),
* the orchestrator state `DroverState`, its event handler `handle_event`,
  `check_unblocked`, `create_unblock_task`, and the final result
  computation (src/drover/mod.rs).

Modelling conventions: Rust `u32` / `i32` counters and priorities are
modelled as `Nat` / `Int` (no claim in scope depends on wrap-around
behaviour, counters are incremented by one per processed event);
`HashMap` is modelled as an association list whose insert replaces the
existing key, so key sets behave identically; `Duration` values are
opaque `Nat`s; identifier strings handled by the engine are ASCII, so
Rust byte slicing of ids is modelled as character-level `String.take`.
-/

namespace Drover

/-- Task lifecycle statuses, from `enum TaskStatus` in src/drover/mod.rs. -/
inductive TaskStatus where
  | Ready
  | Claimed
  | InProgress
  | Blocked
  | Completed
  | Failed
deriving DecidableEq, Repr

/-- The task record, from `struct Task` in src/drover/mod.rs. -/
structure Task where
  id : String
  title : String
  description : Option String
  priority : Int
  status : TaskStatus
  parent_epic : Option String
  blocked_by : List String
  labels : List String
  attempts : Nat
  last_error : Option String
deriving DecidableEq, Repr

/-- Worker events, from `enum WorkerEvent` in src/workers/mod.rs.
Durations are opaque. -/
inductive WorkerEvent where
  | taskCompleted (task_id : String) (duration : Nat)
  | taskFailed (task_id : String) (error : String) (retriable : Bool)
  | taskBlocked (task_id : String) (blocked_by : List String)
  | stalled (duration : Nat)
deriving DecidableEq, Repr

/-! ## Claim registry (`WorkerState`, src/workers/mod.rs) -/

/-- The state behind the `WorkerState` lock: the task snapshot and the
`worker_id -> task_id` assignment map (`HashMap` modelled as an
association list with replace-on-insert). -/
structure WorkerStateInner where
  tasks : List Task
  current_assignments : List (String × String)
deriving DecidableEq, Repr

/-- The tasks eligible for claiming: `status == Ready` and not the target
of any current assignment — the two `filter`s in `claim_task`. -/
def eligible (s : WorkerStateInner) : List Task :=
  s.tasks.filter fun t =>
    t.status == TaskStatus.Ready &&
    !(s.current_assignments.any fun p => p.2 == t.id)

/-- `Iterator::max_by_key` on priority: returns the last element with the
maximal key, `none` on an empty sequence. -/
def pickMax : List Task → Option Task
  | [] => none
  | t :: ts =>
    match pickMax ts with
    | none => some t
    | some u => if t.priority ≤ u.priority then some u else some t

/-- `HashMap::insert`: replaces any existing binding of the key. -/
def insertAssignment (w tid : String) (m : List (String × String)) :
    List (String × String) :=
  (w, tid) :: m.filter fun p => p.1 ≠ w

/-- `WorkerState::claim_task`: select the highest-priority ready,
unassigned task, record `worker_id -> task_id`, and return it. -/
def claim_task (w : String) (s : WorkerStateInner) :
    Option Task × WorkerStateInner :=
  match pickMax (eligible s) with
  | some t =>
      (some t,
       { s with current_assignments :=
           insertAssignment w t.id s.current_assignments })
  | none => (none, s)

/-- `WorkerState::release_task`: remove the worker's assignment
unconditionally. -/
def release_task (w : String) (s : WorkerStateInner) : WorkerStateInner :=
  { s with current_assignments :=
      s.current_assignments.filter fun p => p.1 ≠ w }

/-- `WorkerState::ready_count`. -/
def ready_count (s : WorkerStateInner) : Nat :=
  (s.tasks.filter fun t => t.status == TaskStatus.Ready).length

/-- Registry operations: each worker loop iteration performs a claim and
later a release. -/
inductive RegOp where
  | claim (w : String)
  | release (w : String)

/-- Apply one registry operation (the returned task, if any, is only
reported to the caller; the registry state is the second component). -/
def applyOp (s : WorkerStateInner) : RegOp → WorkerStateInner
  | .claim w => (claim_task w s).2
  | .release w => release_task w s

/-- Run a sequence of registry operations. -/
def runOps (s : WorkerStateInner) (ops : List RegOp) : WorkerStateInner :=
  ops.foldl applyOp s

/-- Run one claim attempt per worker in the given list, collecting the
results in order. -/
def claimAll : List String → WorkerStateInner →
    List (Option Task) × WorkerStateInner
  | [], s => ([], s)
  | w :: ws, s =>
    let r := claim_task w s
    let rest := claimAll ws r.2
    (r.1 :: rest.1, rest.2)

/-! ### Basic lemmas about the registry -/

theorem pickMax_eq_none_iff (l : List Task) : pickMax l = none ↔ l = [] := by
  cases l with
  | nil => simp [pickMax]
  | cons t ts =>
    simp only [pickMax]
    cases hp : pickMax ts with
    | none => simp
    | some u =>
      by_cases hle : t.priority ≤ u.priority <;> simp [hle]

theorem pickMax_mem : ∀ {l : List Task} {t : Task},
    pickMax l = some t → t ∈ l := by
  intro l
  induction l with
  | nil => intro t h; simp [pickMax] at h
  | cons a ts ih =>
    intro t h
    simp only [pickMax] at h
    cases hp : pickMax ts with
    | none =>
      simp only [hp] at h
      injection h with h
      subst h
      exact List.mem_cons_self _ _
    | some u =>
      simp only [hp] at h
      by_cases hle : a.priority ≤ u.priority
      · rw [if_pos hle] at h
        injection h with h
        subst h
        exact List.mem_cons_of_mem _ (ih hp)
      · rw [if_neg hle] at h
        injection h with h
        subst h
        exact List.mem_cons_self _ _

theorem pickMax_le : ∀ {l : List Task} {t : Task}, pickMax l = some t →
    ∀ u ∈ l, u.priority ≤ t.priority := by
  intro l
  induction l with
  | nil => intro t h; simp [pickMax] at h
  | cons a ts ih =>
    intro t h u hu
    simp only [pickMax] at h
    cases hp : pickMax ts with
    | none =>
      simp only [hp] at h
      injection h with h
      subst h
      have hts : ts = [] := (pickMax_eq_none_iff ts).mp hp
      subst hts
      rcases List.mem_cons.mp hu with rfl | hmem
      · exact le_refl _
      · cases hmem
    | some v =>
      simp only [hp] at h
      by_cases hle : a.priority ≤ v.priority
      · rw [if_pos hle] at h
        injection h with h
        subst h
        rcases List.mem_cons.mp hu with rfl | hmem
        · exact hle
        · exact ih hp u hmem
      · rw [if_neg hle] at h
        injection h with h
        subst h
        rcases List.mem_cons.mp hu with rfl | hmem
        · exact le_refl _
        · exact le_trans (ih hp u hmem) (le_of_not_le hle)

theorem mem_eligible {s : WorkerStateInner} {t : Task} :
    t ∈ eligible s ↔
      t ∈ s.tasks ∧ t.status = TaskStatus.Ready ∧
        ∀ p ∈ s.current_assignments, p.2 ≠ t.id := by
  simp [eligible, List.mem_filter, and_assoc]

/-- A task id is the target of at most one assignment: the task-id
column of the assignment map has no duplicates. -/
def AssignedOnce (s : WorkerStateInner) : Prop :=
  (s.current_assignments.map Prod.snd).Nodup

theorem claim_task_assignedOnce (w : String) (s : WorkerStateInner)
    (h : AssignedOnce s) : AssignedOnce (claim_task w s).2 := by
  cases hp : pickMax (eligible s) with
  | none => simp only [claim_task, hp]; exact h
  | some t =>
    have hunas := (mem_eligible.mp (pickMax_mem hp)).2.2
    simp only [claim_task, hp, AssignedOnce, insertAssignment, List.map_cons]
    refine List.nodup_cons.mpr ⟨?_, ?_⟩
    · intro hmem
      obtain ⟨p, hpmem, hpeq⟩ := List.mem_map.mp hmem
      exact hunas p (List.mem_of_mem_filter hpmem) hpeq
    · exact h.sublist ((List.filter_sublist _).map Prod.snd)

theorem release_task_assignedOnce (w : String) (s : WorkerStateInner)
    (h : AssignedOnce s) : AssignedOnce (release_task w s) :=
  h.sublist ((List.filter_sublist _).map Prod.snd)

theorem runOps_assignedOnce : ∀ (ops : List RegOp) (s : WorkerStateInner),
    AssignedOnce s → AssignedOnce (runOps s ops) := by
  intro ops
  induction ops with
  | nil => intro s h; exact h
  | cons op ops ih =>
    intro s h
    rw [runOps, List.foldl_cons]
    refine ih _ ?_
    cases op with
    | claim w => exact claim_task_assignedOnce w s h
    | release w => exact release_task_assignedOnce w s h

theorem filter_ne_id_length : ∀ {l : List Task},
    (l.map Task.id).Nodup → ∀ {t : Task}, t ∈ l →
    (l.filter fun u => !(u.id == t.id)).length + 1 = l.length := by
  intro l
  induction l with
  | nil => intro _ t ht; cases ht
  | cons a l ih =>
    intro hn t ht
    have hn' := hn
    rw [List.map_cons, List.nodup_cons] at hn'
    by_cases hid : a.id = t.id
    · rw [List.filter_cons]
      have : (!(a.id == t.id)) = false := by simp [hid]
      rw [this]
      simp only [Bool.false_eq_true, if_false, List.length_cons]
      have hkeep : l.filter (fun u => !(u.id == t.id)) = l := by
        apply List.filter_eq_self.mpr
        intro u hu
        have : u.id ≠ t.id := by
          intro he
          exact hn'.1 (hid ▸ he ▸ List.mem_map_of_mem Task.id hu)
        simp [this]
      rw [hkeep]
    · have htl : t ∈ l := by
        rcases List.mem_cons.mp ht with rfl | hmem
        · exact absurd rfl hid
        · exact hmem
      rw [List.filter_cons]
      have : (!(a.id == t.id)) = true := by simp [hid]
      rw [this]
      simp only [if_true, List.length_cons]
      rw [← ih hn'.2 htl]

theorem filter_untouched_key {w : String} {m : List (String × String)}
    (h : ∀ p ∈ m, p.1 ≠ w) : (m.filter fun p => p.1 ≠ w) = m :=
  List.filter_eq_self.mpr fun p hp => by simp [h p hp]

theorem eligible_after_claim {w : String} {s : WorkerStateInner} {t : Task}
    (hfresh : ∀ p ∈ s.current_assignments, p.1 ≠ w)
    (hp : pickMax (eligible s) = some t) :
    eligible (claim_task w s).2
      = (eligible s).filter fun u => !(u.id == t.id) := by
  simp only [claim_task, hp]
  unfold eligible insertAssignment
  rw [filter_untouched_key hfresh, List.filter_filter]
  apply List.filter_congr
  intro u _
  apply Bool.eq_iff_iff.mpr
  simp only [List.any_cons, Bool.and_eq_true, Bool.not_eq_true',
    Bool.or_eq_false_iff, beq_eq_false_iff_ne, ne_eq, beq_iff_eq]
  constructor
  · rintro ⟨h1, h2, h3⟩
    exact ⟨fun he => h2 he.symm, h1, h3⟩
  · rintro ⟨h2, h1, h3⟩
    exact ⟨h1, fun he => h2 he.symm, h3⟩

theorem eligible_ids_nodup {s : WorkerStateInner}
    (h : (s.tasks.map Task.id).Nodup) : ((eligible s).map Task.id).Nodup :=
  h.sublist ((List.filter_sublist _).map Task.id)

theorem claimAll_length : ∀ (ws : List String) (s : WorkerStateInner),
    (claimAll ws s).1.length = ws.length := by
  intro ws
  induction ws with
  | nil => intro s; simp [claimAll]
  | cons w ws ih => intro s; simp [claimAll, ih]

theorem claimAll_count_isSome : ∀ (ws : List String) (s : WorkerStateInner),
    (s.tasks.map Task.id).Nodup → ws.Nodup →
    (∀ w ∈ ws, ∀ p ∈ s.current_assignments, p.1 ≠ w) →
    (claimAll ws s).1.countP Option.isSome
      = min ws.length (eligible s).length := by
  intro ws
  induction ws with
  | nil => intro s _ _ _; simp [claimAll]
  | cons w ws ih =>
    intro s hids hnd hfresh
    simp only [claimAll]
    cases hp : pickMax (eligible s) with
    | none =>
      have hel : eligible s = [] := (pickMax_eq_none_iff _).mp hp
      simp only [claim_task, hp, List.countP_cons]
      have hrest := ih s hids hnd.of_cons
        (fun w' hw' => hfresh w' (List.mem_cons_of_mem _ hw'))
      simp [hrest, hel]
    | some t =>
      have hfw : ∀ p ∈ s.current_assignments, p.1 ≠ w :=
        hfresh w (List.mem_cons_self _ _)
      have helig := eligible_after_claim hfw hp
      have hlen : (eligible (claim_task w s).2).length + 1
          = (eligible s).length := by
        rw [helig]
        exact filter_ne_id_length (eligible_ids_nodup hids) (pickMax_mem hp)
      have htasks : (claim_task w s).2.tasks = s.tasks := by
        simp only [claim_task, hp]
      have hfresh' : ∀ w' ∈ ws, ∀ p ∈ (claim_task w s).2.current_assignments,
          p.1 ≠ w' := by
        intro w' hw' p hpm
        simp only [claim_task, hp, insertAssignment] at hpm
        rcases List.mem_cons.mp hpm with rfl | hmem
        · intro he
          have he' : w = w' := he
          subst he'
          exact (List.nodup_cons.mp hnd).1 hw'
        · exact hfresh w' (List.mem_cons_of_mem _ hw') p
            (List.mem_of_mem_filter hmem)
      have hrest := ih (claim_task w s).2 (htasks ▸ hids) hnd.of_cons hfresh'
      simp only [claim_task, hp] at hrest ⊢
      simp only [List.countP_cons, Option.isSome_some, if_true]
      rw [hrest]
      simp only [claim_task, hp] at hlen
      rw [← hlen, List.length_cons, Nat.succ_min_succ]

theorem eligible_empty_assignments (tasks : List Task) :
    eligible ⟨tasks, []⟩
      = tasks.filter fun t => t.status == TaskStatus.Ready := by
  unfold eligible
  apply List.filter_congr
  intro u _
  simp

theorem countP_isNone_eq (l : List (Option Task)) :
    l.countP Option.isNone = l.length - l.countP Option.isSome := by
  induction l with
  | nil => simp
  | cons o l ih =>
    cases o with
    | none =>
      simp only [List.countP_cons, List.length_cons, Option.isNone_none,
        Option.isSome_none, if_true, Bool.false_eq_true, if_false, ih]
      have : l.countP Option.isSome ≤ l.length := List.countP_le_length _
      omega
    | some t =>
      simp only [List.countP_cons, List.length_cons, Option.isNone_some,
        Option.isSome_some, if_true, Bool.false_eq_true, if_false, ih]
      have : l.countP Option.isSome ≤ l.length := List.countP_le_length _
      omega

/-- A minimal task record used for concrete instances. -/
def mkTask (id : String) (priority : Int) (status : TaskStatus) : Task :=
  { id := id, title := id, description := none, priority := priority,
    status := status, parent_epic := none, blocked_by := [], labels := [],
    attempts := 0, last_error := none }

/-- C4: `claim_task` returns a task exactly when some task is `Ready` and
not the target of any current assignment; a returned task is `Ready`,
previously unassigned, of maximal priority among the eligible tasks, and
the `workerId → taskId` binding is recorded; when it returns `none` the
state is unchanged. -/
theorem claim_task_spec (w : String) (s : WorkerStateInner) :
    ((claim_task w s).1.isSome = true ↔
      ∃ t ∈ s.tasks, t.status = TaskStatus.Ready ∧
        ∀ p ∈ s.current_assignments, p.2 ≠ t.id) ∧
    (∀ t, (claim_task w s).1 = some t →
      t.status = TaskStatus.Ready ∧
      (∀ p ∈ s.current_assignments, p.2 ≠ t.id) ∧
      (∀ u ∈ eligible s, u.priority ≤ t.priority) ∧
      (claim_task w s).2.current_assignments
        = insertAssignment w t.id s.current_assignments ∧
      (w, t.id) ∈ (claim_task w s).2.current_assignments ∧
      (claim_task w s).2.tasks = s.tasks) ∧
    ((claim_task w s).1 = none → (claim_task w s).2 = s) := by
  cases hp : pickMax (eligible s) with
  | none =>
    have hel : eligible s = [] := (pickMax_eq_none_iff _).mp hp
    refine ⟨?_, ?_, ?_⟩
    · simp only [claim_task, hp]
      constructor
      · intro h; simp at h
      · rintro ⟨t, ht, hr, hun⟩
        have : t ∈ eligible s := mem_eligible.mpr ⟨ht, hr, hun⟩
        rw [hel] at this
        cases this
    · intro t h
      simp only [claim_task, hp] at h
      cases h
    · intro _
      simp only [claim_task, hp]
  | some t =>
    have htel : t ∈ eligible s := pickMax_mem hp
    obtain ⟨htask, hready, hunas⟩ := mem_eligible.mp htel
    refine ⟨?_, ?_, ?_⟩
    · simp only [claim_task, hp, Option.isSome_some, true_iff]
      exact ⟨t, htask, hready, hunas⟩
    · intro t' h
      simp only [claim_task, hp] at h
      injection h with h
      subst h
      refine ⟨hready, hunas, pickMax_le hp, ?_, ?_, ?_⟩
      · simp only [claim_task, hp]
      · simp only [claim_task, hp, insertAssignment]
        exact List.mem_cons_self _ _
      · simp only [claim_task, hp]
    · intro h
      simp only [claim_task, hp] at h
      exact Option.noConfusion h

theorem claim_task_spec_witness :
    (claim_task "w0"
        ⟨[mkTask "t1" 1 TaskStatus.Ready, mkTask "t2" 5 TaskStatus.Ready],
          []⟩).1
      = some (mkTask "t2" 5 TaskStatus.Ready) ∧
    (mkTask "t2" 5 TaskStatus.Ready).status = TaskStatus.Ready ∧
    ("w0", (mkTask "t2" 5 TaskStatus.Ready).id) ∈
      (claim_task "w0"
        ⟨[mkTask "t1" 1 TaskStatus.Ready, mkTask "t2" 5 TaskStatus.Ready],
          []⟩).2.current_assignments := by
  have h := (claim_task_spec "w0"
    ⟨[mkTask "t1" 1 TaskStatus.Ready, mkTask "t2" 5 TaskStatus.Ready],
      []⟩).2.1 (mkTask "t2" 5 TaskStatus.Ready) (by decide)
  exact ⟨by decide, h.1, h.2.2.2.2.1⟩

/-- C3: each task id is the target of at most one assignment in every
state reachable by claim/release operations from a registry with no
assignments; and with `K` ready tasks and `W > K` claim attempts by
distinct workers, exactly `K` attempts return a task and the remaining
`W − K` return `none`. -/
theorem claim_registry_exclusive (tasks : List Task) (ops : List RegOp)
    (ws : List String) (hids : (tasks.map Task.id).Nodup) (hws : ws.Nodup)
    (hWK : (tasks.filter fun t => t.status == TaskStatus.Ready).length
      < ws.length) :
    AssignedOnce (runOps ⟨tasks, []⟩ ops) ∧
    (claimAll ws ⟨tasks, []⟩).1.countP Option.isSome
      = (tasks.filter fun t => t.status == TaskStatus.Ready).length ∧
    (claimAll ws ⟨tasks, []⟩).1.countP Option.isNone
      = ws.length
        - (tasks.filter fun t => t.status == TaskStatus.Ready).length := by
  have hsome : (claimAll ws ⟨tasks, []⟩).1.countP Option.isSome
      = (tasks.filter fun t => t.status == TaskStatus.Ready).length := by
    rw [claimAll_count_isSome ws ⟨tasks, []⟩ hids hws
      (fun w _ p hp => by cases hp), eligible_empty_assignments]
    omega
  refine ⟨?_, hsome, ?_⟩
  · exact runOps_assignedOnce ops ⟨tasks, []⟩ List.nodup_nil
  · rw [countP_isNone_eq, claimAll_length, hsome]

theorem claim_registry_exclusive_witness :
    ([mkTask "t1" 1 TaskStatus.Ready,
      mkTask "t2" 5 TaskStatus.Ready].map Task.id).Nodup ∧
    (["w0", "w1", "w2"] : List String).Nodup ∧
    ([mkTask "t1" 1 TaskStatus.Ready,
      mkTask "t2" 5 TaskStatus.Ready].filter
        fun t => t.status == TaskStatus.Ready).length < 3 ∧
    (claimAll ["w0", "w1", "w2"]
      ⟨[mkTask "t1" 1 TaskStatus.Ready, mkTask "t2" 5 TaskStatus.Ready],
        []⟩).1.countP Option.isSome = 2 := by
  refine ⟨by decide, by decide, by decide, ?_⟩
  exact (claim_registry_exclusive
    [mkTask "t1" 1 TaskStatus.Ready, mkTask "t2" 5 TaskStatus.Ready]
    [] ["w0", "w1", "w2"] (by decide) (by decide) (by decide)).2.1

/-! ## Worker outcome translation (src/workers/mod.rs, `spawn_workers`) -/

/-- The outcome of one `TaskExecutor::execute` invocation: a duration on
success, or the error text of the failure. -/
inductive Outcome where
  | ok (duration : Nat)
  | err (msg : String)

/-- A character matched by the `[a-z0-9]` class of the blocker regex. -/
def isBdChar (c : Char) : Bool :=
  ('a' ≤ c && c ≤ 'z') || ('0' ≤ c && c ≤ '9')

/-- The greedy `[a-z0-9]+` run: the maximal identifier run and the
remaining characters. -/
def spanIdent : List Char → List Char × List Char
  | [] => ([], [])
  | c :: cs =>
    if isBdChar c then
      ((spanIdent cs).1.cons c, (spanIdent cs).2)
    else ([], c :: cs)

theorem spanIdent_snd_length_le (l : List Char) :
    (spanIdent l).2.length ≤ l.length := by
  induction l with
  | nil => simp [spanIdent]
  | cons c cs ih =>
    simp only [spanIdent]
    by_cases h : isBdChar c
    · simp only [h, if_true]
      exact Nat.le_succ_of_le ih
    · simp [h]

/-- `Regex::find_iter` for the pattern `bd-[a-z0-9]+`: try a match at
each position, emit the greedy match and continue past it, otherwise
advance one character. -/
def scanBlockers : List Char → List String
  | [] => []
  | 'b' :: 'd' :: '-' :: c :: cs =>
    if isBdChar c then
      String.mk ('b' :: 'd' :: '-' :: c :: (spanIdent cs).1)
        :: scanBlockers (spanIdent cs).2
    else scanBlockers ('d' :: '-' :: c :: cs)
  | _ :: cs => scanBlockers cs
termination_by l => l.length
decreasing_by
  · have := spanIdent_snd_length_le cs
    simp only [List.length_cons]
    omega
  · simp only [List.length_cons]
    omega
  · simp only [List.length_cons]
    omega

/-- `extract_blockers` from src/workers/mod.rs. -/
def extract_blockers (msg : String) : List String :=
  scanBlockers msg.data

/-- `str::contains` for a literal pattern. -/
def substrAux (pat : List Char) : List Char → Bool
  | [] => pat.isEmpty
  | c :: cs => pat.isPrefixOf (c :: cs) || substrAux pat cs

/-- `hay.contains(pat)` on strings. -/
def containsSubstr (hay pat : String) : Bool := substrAux pat.data hay.data

/-- The event emitted by the worker loop for one execution outcome
(src/workers/mod.rs lines 150-184): exactly one event per outcome. -/
def translateOutcome (taskId : String) (result : Outcome) : WorkerEvent :=
  match result with
  | .ok d => .taskCompleted taskId d
  | .err msg =>
    let retriable := !(containsSubstr msg "blocked")
    if retriable then .taskFailed taskId msg true
    else if containsSubstr msg "blocked by" then
      .taskBlocked taskId (extract_blockers msg)
    else .taskFailed taskId msg false

theorem substr_of_contains_longer {p1 p2 l : List Char}
    (hpre : p1.isPrefixOf p2 = true) (h : substrAux p2 l = true) :
    substrAux p1 l = true := by
  induction l with
  | nil =>
    simp only [substrAux, List.isEmpty_iff] at h
    subst h
    rw [List.isPrefixOf_iff_prefix] at hpre
    have : p1 = [] := List.prefix_nil.mp hpre
    simp [substrAux, this]
  | cons c cs ih =>
    simp only [substrAux, Bool.or_eq_true] at h ⊢
    rcases h with h | h
    · left
      rw [List.isPrefixOf_iff_prefix] at hpre h ⊢
      exact hpre.trans h
    · right; exact ih h

theorem contains_blocked_of_blocked_by {msg : String}
    (h : containsSubstr msg "blocked by" = true) :
    containsSubstr msg "blocked" = true :=
  substr_of_contains_longer (by decide) h

theorem spanIdent_chars : ∀ l : List Char, ∀ c ∈ (spanIdent l).1,
    isBdChar c = true := by
  intro l
  induction l with
  | nil => intro c hc; simp [spanIdent] at hc
  | cons a cs ih =>
    intro c hc
    by_cases h : isBdChar a
    · simp only [spanIdent, h, if_true] at hc
      rcases List.mem_cons.mp hc with rfl | hm
      · exact h
      · exact ih c hm
    · simp [spanIdent, h] at hc

theorem scanBlockers_shape : ∀ l : List Char, ∀ tok ∈ scanBlockers l,
    ∃ c rest, tok = String.mk ('b' :: 'd' :: '-' :: c :: rest) ∧
      isBdChar c = true ∧ ∀ ch ∈ rest, isBdChar ch = true := by
  intro l
  induction l using scanBlockers.induct with
  | case1 =>
    intro tok htok
    simp [scanBlockers] at htok
  | case2 c cs hc ih =>
    intro tok htok
    simp only [scanBlockers, if_pos hc] at htok
    rcases List.mem_cons.mp htok with rfl | hmem
    · exact ⟨c, (spanIdent cs).1, rfl, hc, spanIdent_chars cs⟩
    · exact ih tok hmem
  | case3 c cs hc ih =>
    intro tok htok
    simp only [scanBlockers, if_neg hc] at htok
    exact ih tok htok
  | case4 a cs h1 ih =>
    intro tok htok
    simp only [scanBlockers] at htok
    exact ih tok htok

/-- C6: the worker loop emits exactly one event per outcome: a
`TaskCompleted` on success; a `TaskBlocked` carrying exactly the
`bd-`-prefixed alphanumeric tokens extracted from the message when the
message contains "blocked by"; otherwise a `TaskFailed` whose retriable
flag is `true` unless the message signals the non-retriable condition
(containing "blocked" without "blocked by"). -/
theorem worker_outcome_translation (taskId msg : String) (d : Nat) :
    translateOutcome taskId (Outcome.ok d)
      = WorkerEvent.taskCompleted taskId d ∧
    (containsSubstr msg "blocked by" = true →
      translateOutcome taskId (Outcome.err msg)
        = WorkerEvent.taskBlocked taskId (extract_blockers msg)) ∧
    (containsSubstr msg "blocked" = false →
      translateOutcome taskId (Outcome.err msg)
        = WorkerEvent.taskFailed taskId msg true) ∧
    (containsSubstr msg "blocked" = true →
      containsSubstr msg "blocked by" = false →
      translateOutcome taskId (Outcome.err msg)
        = WorkerEvent.taskFailed taskId msg false) ∧
    (∀ tok ∈ extract_blockers msg, ∃ r, tok.data = 'b' :: 'd' :: '-' :: r ∧
      r ≠ [] ∧ ∀ ch ∈ r, isBdChar ch = true) := by
  refine ⟨rfl, ?_, ?_, ?_, ?_⟩
  · intro hby
    have hb := contains_blocked_of_blocked_by hby
    simp [translateOutcome, hb, hby]
  · intro hb
    simp [translateOutcome, hb]
  · intro hb hby
    simp [translateOutcome, hb, hby]
  · intro tok htok
    obtain ⟨c, rest, rfl, hc, hrest⟩ := scanBlockers_shape msg.data tok htok
    refine ⟨c :: rest, rfl, List.cons_ne_nil _ _, ?_⟩
    intro ch hch
    rcases List.mem_cons.mp hch with rfl | hm
    · exact hc
    · exact hrest ch hm

theorem worker_outcome_translation_witness :
    containsSubstr "blocked by bd-123" "blocked by" = true ∧
    translateOutcome "t1" (Outcome.err "blocked by bd-123")
      = WorkerEvent.taskBlocked "t1" ["bd-123"] ∧
    translateOutcome "t1" (Outcome.err "connection reset")
      = WorkerEvent.taskFailed "t1" "connection reset" true := by
  have h2 := (worker_outcome_translation "t1" "blocked by bd-123" 0).2.1
    (by decide)
  have h3 := (worker_outcome_translation "t1" "connection reset" 0).2.2.1
    (by decide)
  refine ⟨by decide, ?_, h3⟩
  rw [h2]
  have : extract_blockers "blocked by bd-123" = ["bd-123"] := by
    simp [extract_blockers, scanBlockers, spanIdent, isBdChar]
  rw [this]

/-! ## Orchestrator (`Drover`, src/drover/mod.rs) -/

/-- The `DroverConfig` fields read by the event handler
(src/config.rs). -/
structure DroverConfig where
  max_task_attempts : Nat
  auto_unblock : Bool
deriving DecidableEq, Repr

/-- The canonical run state `DroverState` (timestamps are not modelled;
no claim in scope depends on them). The task map is an association list
with replace-on-insert, mirroring `HashMap<String, Task>`. -/
structure DroverState where
  tasks : List (String × Task)
  completed_count : Nat
  failed_count : Nat
  auto_created_tasks : List String
deriving DecidableEq, Repr

/-- `HashMap::insert` on the canonical task map. -/
def insertTask (k : String) (t : Task) (m : List (String × Task)) :
    List (String × Task) :=
  (k, t) :: m.filter fun p => p.1 ≠ k

/-- `HashMap::get_mut` followed by an in-place update: apply `f` to the
entry with the given key, leave other entries unchanged. -/
def updateTask (id : String) (f : Task → Task) (m : List (String × Task)) :
    List (String × Task) :=
  m.map fun p => (p.1, if p.1 = id then f p.2 else p.2)

/-- One element of the `Drover::check_unblocked` pass: a `Blocked` task
drops the completed id from `blocked_by` (`Vec::retain`) and becomes
`Ready` when the list empties. -/
def unblockPass (cid : String) (t : Task) : Task :=
  if t.status = TaskStatus.Blocked then
    let bb := t.blocked_by.filter fun b => b ≠ cid
    { t with blocked_by := bb,
             status := if bb.isEmpty then TaskStatus.Ready
                       else TaskStatus.Blocked }
  else t

/-- `Drover::check_unblocked`, applied over the whole task map. -/
def check_unblocked (cid : String) (m : List (String × Task)) :
    List (String × Task) :=
  m.map fun p => (p.1, unblockPass cid p.2)

/-- The task update performed for a `TaskFailed` event: increment
`attempts`, record the error, requeue as `Ready` when retriable and the
incremented attempts are still below `max_task_attempts`, otherwise mark
`Failed`. -/
def applyFail (cfg : DroverConfig) (err : String) (retriable : Bool)
    (t : Task) : Task :=
  { t with
    attempts := t.attempts + 1
    last_error := some err
    status :=
      if retriable && decide (t.attempts + 1 < cfg.max_task_attempts)
      then TaskStatus.Ready else TaskStatus.Failed }

/-- The id of a synthetic remediation task: `drover-fix-` followed by the
first `min(8, len)` characters of the blocker id
(`&blocker[..8.min(blocker.len())]`, ASCII ids). -/
def unblockTaskId (b : String) : String :=
  "drover-fix-" ++ b.take 8

/-- The synthetic remediation task built by `Drover::create_unblock_task`. -/
def unblockTask (b : String) : Task :=
  { id := unblockTaskId b
    title := "Fix: " ++ b
    description := some
      ("Auto-created by Drover to unblock dependent tasks.\n\nBlocker: "
        ++ b)
    priority := 100
    status := TaskStatus.Ready
    parent_epic := none
    blocked_by := []
    labels := ["drover-auto"]
    attempts := 0
    last_error := none }

/-- `Drover::create_unblock_task`: insert the remediation task unless the
blocker id was already remediated this run (`auto_created_tasks` guard). -/
def create_unblock_task (b : String) (s : DroverState) : DroverState :=
  if b ∈ s.auto_created_tasks then s
  else
    { s with
      tasks := insertTask (unblockTaskId b) (unblockTask b) s.tasks
      auto_created_tasks := b :: s.auto_created_tasks }

/-- `Drover::handle_event`: the orchestrator transition on one worker
event (timestamps and the external `bd` side effects are not modelled;
they do not touch the canonical state). -/
def handle_event (cfg : DroverConfig) (s : DroverState) :
    WorkerEvent → DroverState
  | .taskCompleted task_id _ =>
    { s with
      tasks := check_unblocked task_id
        (updateTask task_id
          (fun t => { t with status := TaskStatus.Completed }) s.tasks)
      completed_count := s.completed_count + 1 }
  | .taskFailed task_id err retriable =>
    match List.lookup task_id s.tasks with
    | none => s
    | some t =>
      { s with
        tasks := updateTask task_id (applyFail cfg err retriable) s.tasks
        failed_count := s.failed_count +
          (if retriable && decide (t.attempts + 1 < cfg.max_task_attempts)
           then 0 else 1) }
  | .taskBlocked task_id blocked_by =>
    let s1 := { s with
      tasks := updateTask task_id
        (fun t => { t with
                    status := TaskStatus.Blocked
                    blocked_by := blocked_by }) s.tasks }
    if cfg.auto_unblock then
      blocked_by.foldl (fun st b => create_unblock_task b st) s1
    else s1
  | .stalled _ => s

/-- The deduplicated union of `blocked_by` across still-`Blocked` tasks,
as collected into a `HashSet` in `Drover::run`. -/
def blockersList (s : DroverState) : List String :=
  (((s.tasks.filter fun p => p.2.status == TaskStatus.Blocked).map
    fun p => p.2.blocked_by).flatten).dedup

/-- The `success` field of `DroverResult` as computed in `Drover::run`:
`failed_count == 0 && blockers.is_empty()`. -/
def droverSuccess (s : DroverState) : Bool :=
  s.failed_count == 0 && (blockersList s).isEmpty

/-- The `success_rate` field of `DroverResult` (`f32` arithmetic
modelled over `ℚ`): `completed/(completed+failed)` when at least one
task finished, `1` otherwise. -/
def success_rate (completed failed : Nat) : ℚ :=
  if completed + failed > 0 then (completed : ℚ) / ((completed : ℚ) + failed)
  else 1

/-! ### Lookup lemmas for the task map -/

theorem lookup_updateTask (id : String) (f : Task → Task) :
    ∀ m : List (String × Task),
    List.lookup id (updateTask id f m) = (List.lookup id m).map f := by
  intro m
  induction m with
  | nil => rfl
  | cons p m ih =>
    obtain ⟨k, v⟩ := p
    by_cases hk : id = k
    · subst hk
      simp [updateTask, List.lookup]
    · have hbe : (id == k) = false := beq_eq_false_iff_ne.mpr hk
      have hk' : ¬ k = id := fun he => hk he.symm
      simp only [updateTask, List.map_cons, List.lookup, hbe]
      simpa [updateTask] using ih

theorem lookup_check_unblocked (cid j : String) :
    ∀ m : List (String × Task),
    List.lookup j (check_unblocked cid m)
      = (List.lookup j m).map (unblockPass cid) := by
  intro m
  induction m with
  | nil => rfl
  | cons p m ih =>
    obtain ⟨k, v⟩ := p
    by_cases hk : j = k
    · subst hk
      simp [check_unblocked, List.lookup]
    · have hbe : (j == k) = false := beq_eq_false_iff_ne.mpr hk
      simp only [check_unblocked, List.map_cons, List.lookup, hbe]
      simpa [check_unblocked] using ih

/-! ### Result computation (claims C2, C7) -/

/-- C7: the computed success rate is exactly 1 when both final counters
are zero, and exactly `completed/(completed+failed)` otherwise. -/
theorem success_rate_spec (completed failed : Nat) :
    success_rate completed failed
      = if completed = 0 ∧ failed = 0 then 1
        else (completed : ℚ) / ((completed : ℚ) + failed) := by
  unfold success_rate
  by_cases h : completed = 0 ∧ failed = 0
  · obtain ⟨h1, h2⟩ := h
    subst h1
    subst h2
    simp
  · have hpos : completed + failed > 0 := by omega
    rw [if_pos hpos, if_neg h]

/-- C2 (amended): the computed `success` flag is `true` iff
`failed_count = 0` and every still-`Blocked` task has an empty
`blocked_by` list (the code tests emptiness of the union of blockers,
not the absence of `Blocked` tasks). -/
theorem success_iff_no_failures_and_no_blockers (s : DroverState) :
    droverSuccess s = true ↔
      s.failed_count = 0 ∧
        ∀ p ∈ s.tasks, p.2.status = TaskStatus.Blocked →
          p.2.blocked_by = [] := by
  simp only [droverSuccess, blockersList, Bool.and_eq_true, beq_iff_eq,
    List.isEmpty_iff, List.dedup_eq_nil, List.flatten_eq_nil_iff]
  apply and_congr_right
  intro _
  constructor
  · intro h p hp hb
    exact h p.2.blocked_by
      (List.mem_map_of_mem _ (List.mem_filter.mpr ⟨hp, by simp [hb]⟩))
  · intro h l hl
    obtain ⟨p, hpmem, rfl⟩ := List.mem_map.mp hl
    have hf := List.mem_filter.mp hpmem
    exact h p hf.1 (by simpa using hf.2)

/-- The initial state of the C2 counterexample: a single `Ready` task. -/
def c2Init : DroverState :=
  { tasks := [("t-a", mkTask "t-a" 1 TaskStatus.Ready)]
    completed_count := 0
    failed_count := 0
    auto_created_tasks := [] }

/-- The final state of the C2 counterexample: the task got blocked with
an empty extracted blocker list. -/
def c2Final : DroverState :=
  handle_event ⟨3, true⟩ c2Init (WorkerEvent.taskBlocked "t-a" [])

/-- C2 counterexample: a "blocked by" failure message with no `bd-`
token produces a `TaskBlocked` event with an empty blocker list; after
processing it a task is still `Blocked` while `failed_count = 0`, yet
the computed `success` is `true` — refuting "success iff failed_count=0
and no task remains Blocked". -/
theorem success_blocked_cex :
    translateOutcome "t-a" (Outcome.err "blocked by ops")
      = WorkerEvent.taskBlocked "t-a" [] ∧
    droverSuccess c2Final = true ∧
    ("t-a", mkTask "t-a" 1 TaskStatus.Blocked) ∈ c2Final.tasks ∧
    (mkTask "t-a" 1 TaskStatus.Blocked).status = TaskStatus.Blocked ∧
    c2Final.failed_count = 0 := by
  refine ⟨?_, by decide, by decide, by decide, by decide⟩
  have hbl : extract_blockers "blocked by ops" = [] := by
    simp [extract_blockers, scanBlockers, spanIdent, isBdChar]
  have h1 : containsSubstr "blocked by ops" "blocked" = true := by decide
  have h2 : containsSubstr "blocked by ops" "blocked by" = true := by decide
  simp [translateOutcome, hbl, h1, h2]

/-! ### TaskFailed processing (claim C1) -/

/-- C1 (amended): processing a `TaskFailed` event for a tracked task
increments its `attempts` by exactly one regardless of its current
status; the task becomes `Ready` when the event is retriable and the
incremented attempts are still strictly below `max_task_attempts`, and
`Failed` otherwise — in particular a retriable failure at
`attempts = max − 1` yields `Failed` with `attempts = max`, and further
`TaskFailed` events keep incrementing `attempts` past `max`. -/
theorem task_failed_transition (cfg : DroverConfig) (s : DroverState)
    (id err : String) (r : Bool) (t : Task)
    (hl : List.lookup id s.tasks = some t) :
    List.lookup id (handle_event cfg s (WorkerEvent.taskFailed id err r)).tasks
      = some (applyFail cfg err r t) ∧
    (applyFail cfg err r t).attempts = t.attempts + 1 ∧
    (r = true → t.attempts + 1 < cfg.max_task_attempts →
      (applyFail cfg err r t).status = TaskStatus.Ready) ∧
    (r = false → (applyFail cfg err r t).status = TaskStatus.Failed) ∧
    (cfg.max_task_attempts ≤ t.attempts + 1 →
      (applyFail cfg err r t).status = TaskStatus.Failed) := by
  refine ⟨?_, rfl, ?_, ?_, ?_⟩
  · simp only [handle_event, hl]
    rw [lookup_updateTask, hl]
    rfl
  · intro hr hlt
    simp [applyFail, hr, hlt]
  · intro hr
    simp [applyFail, hr]
  · intro hge
    have : ¬ (t.attempts + 1 < cfg.max_task_attempts) := by omega
    simp [applyFail, this]

/-- The configuration and state of the C1 counterexample:
`max_task_attempts = 3` and a tracked task with `attempts = 2`. -/
def c1State : DroverState :=
  { tasks := [("t-a",
      { mkTask "t-a" 1 TaskStatus.Ready with attempts := 2 })]
    completed_count := 0
    failed_count := 0
    auto_created_tasks := [] }

/-- C1 counterexample state after one retriable `TaskFailed` event. -/
def c1Step1 : DroverState :=
  handle_event ⟨3, true⟩ c1State (WorkerEvent.taskFailed "t-a" "boom" true)

/-- C1 counterexample state after a second retriable `TaskFailed`
event. -/
def c1Step2 : DroverState :=
  handle_event ⟨3, true⟩ c1Step1 (WorkerEvent.taskFailed "t-a" "boom" true)

/-- C1 counterexample: with `max_task_attempts = 3`, a task at
`attempts = max − 1 = 2` that fails retriably becomes `Failed` (not
`Ready`) with `attempts = 3`, because the `attempts < max` check runs
after the increment; a further retriable failure pushes `attempts` to
`4 > max`, so `attempts` does exceed `max`. -/
theorem retry_boundary_cex :
    (List.lookup "t-a" c1Step1.tasks).map Task.status
      = some TaskStatus.Failed ∧
    ¬ ((List.lookup "t-a" c1Step1.tasks).map Task.status
        = some TaskStatus.Ready) ∧
    (List.lookup "t-a" c1Step1.tasks).map Task.attempts = some 3 ∧
    (List.lookup "t-a" c1Step2.tasks).map Task.attempts = some 4 := by
  decide

theorem task_failed_transition_witness :
    List.lookup "t-a" c1State.tasks
      = some ({ mkTask "t-a" 1 TaskStatus.Ready with attempts := 2 }) ∧
    (applyFail ⟨3, true⟩ "boom" true
      ({ mkTask "t-a" 1 TaskStatus.Ready with attempts := 2 })).attempts
      = 3 := by
  have h := task_failed_transition ⟨3, true⟩ c1State "t-a" "boom" true
    ({ mkTask "t-a" 1 TaskStatus.Ready with attempts := 2 }) (by decide)
  exact ⟨by decide, h.2.1⟩

/-! ### Terminal statuses (claim C8) -/

/-- C8 (amended): `handle_event` never consults a task's current status:
a `TaskBlocked` event for a tracked task sets its status to `Blocked`
and overwrites `blocked_by` even when the task is already `Completed` or
`Failed` — terminal statuses are not absorbing. -/
theorem terminal_status_not_guarded (cfg : DroverConfig) (s : DroverState)
    (id : String) (bs : List String) (t : Task)
    (hl : List.lookup id s.tasks = some t)
    (hterm : t.status = TaskStatus.Completed ∨ t.status = TaskStatus.Failed)
    (hau : cfg.auto_unblock = false) :
    List.lookup id
        (handle_event cfg s (WorkerEvent.taskBlocked id bs)).tasks
      = some { t with status := TaskStatus.Blocked, blocked_by := bs } ∧
    ({ t with status := TaskStatus.Blocked, blocked_by := bs }).status
      ≠ t.status := by
  constructor
  · simp only [handle_event, hau, Bool.false_eq_true, if_false]
    rw [lookup_updateTask, hl]
    rfl
  · rcases hterm with h | h <;> simp [h]

/-- The C8 counterexample state: a task already `Completed`. -/
def c8State : DroverState :=
  { tasks := [("t-a", mkTask "t-a" 1 TaskStatus.Completed)]
    completed_count := 1
    failed_count := 0
    auto_created_tasks := [] }

/-- C8 counterexample: a `TaskBlocked` event processed for a task whose
status is `Completed` (terminal) moves it to `Blocked`, so a terminal
status is revisited. -/
theorem terminal_status_cex :
    (List.lookup "t-a" c8State.tasks).map Task.status
      = some TaskStatus.Completed ∧
    (List.lookup "t-a"
        (handle_event ⟨3, false⟩ c8State
          (WorkerEvent.taskBlocked "t-a" ["bd-x"])).tasks).map Task.status
      = some TaskStatus.Blocked := by
  decide

theorem terminal_status_not_guarded_witness :
    List.lookup "t-a" c8State.tasks
      = some (mkTask "t-a" 1 TaskStatus.Completed) ∧
    List.lookup "t-a"
        (handle_event ⟨3, false⟩ c8State
          (WorkerEvent.taskBlocked "t-a" ["bd-x"])).tasks
      = some { mkTask "t-a" 1 TaskStatus.Completed with
               status := TaskStatus.Blocked
               blocked_by := ["bd-x"] } := by
  have h := terminal_status_not_guarded ⟨3, false⟩ c8State "t-a" ["bd-x"]
    (mkTask "t-a" 1 TaskStatus.Completed) (by decide) (Or.inl rfl) rfl
  exact ⟨by decide, h.1⟩

/-! ### Unblocking on completion (claim C5) -/

/-- C5: processing a `TaskCompleted` event for `B` removes `B` from the
`blocked_by` of every `Blocked` task; a `Blocked` task whose `blocked_by`
empties becomes `Ready`, one whose `blocked_by` stays non-empty stays
`Blocked`; and afterwards no `Blocked` task retains `B` in its
`blocked_by`. -/
theorem task_completed_unblocks (cfg : DroverConfig) (s : DroverState)
    (B : String) (d : Nat) (p : String × Task)
    (hmem : p ∈ s.tasks) (hb : p.2.status = TaskStatus.Blocked)
    (hne : p.1 ≠ B) :
    (p.1, unblockPass B p.2)
        ∈ (handle_event cfg s (WorkerEvent.taskCompleted B d)).tasks ∧
    B ∉ (unblockPass B p.2).blocked_by ∧
    ((unblockPass B p.2).status = TaskStatus.Ready ↔
      (p.2.blocked_by.filter fun b => b ≠ B) = []) ∧
    ((p.2.blocked_by.filter fun b => b ≠ B) ≠ [] →
      (unblockPass B p.2).status = TaskStatus.Blocked) ∧
    (∀ q ∈ (handle_event cfg s (WorkerEvent.taskCompleted B d)).tasks,
      q.2.status = TaskStatus.Blocked → B ∉ q.2.blocked_by) := by
  obtain ⟨k, v⟩ := p
  simp only at hb hne
  refine ⟨?_, ?_, ?_, ?_, ?_⟩
  · have h1 : (k, v) ∈ updateTask B
        (fun t => { t with status := TaskStatus.Completed }) s.tasks := by
      have hm := List.mem_map_of_mem
        (fun q : String × Task =>
          (q.1, if q.1 = B then { q.2 with status := TaskStatus.Completed }
                else q.2)) hmem
      simpa [updateTask, if_neg hne] using hm
    have h2 := List.mem_map_of_mem
      (fun q : String × Task => (q.1, unblockPass B q.2)) h1
    simpa [handle_event, check_unblocked] using h2
  · simp [unblockPass, hb, List.mem_filter]
  · by_cases he : (v.blocked_by.filter fun b => b ≠ B) = [] <;>
      simp [unblockPass, hb, he, List.isEmpty_iff]
  · intro hne2
    simp only [unblockPass, hb, if_true, List.isEmpty_iff]
    rw [if_neg hne2]
  · intro q hq hqb
    simp only [handle_event, check_unblocked] at hq
    obtain ⟨q1, hq1, rfl⟩ := List.mem_map.mp hq
    simp only at hqb
    by_cases hv : q1.2.status = TaskStatus.Blocked
    · simp [unblockPass, hv, List.mem_filter]
    · unfold unblockPass at hqb
      rw [if_neg hv] at hqb
      exact absurd hqb hv

/-- The C5 witness state: `t-a` is blocked only on `t-b`. -/
def c5State : DroverState :=
  { tasks := [("t-b", mkTask "t-b" 1 TaskStatus.Ready),
      ("t-a", { mkTask "t-a" 1 TaskStatus.Blocked with
                blocked_by := ["t-b"] })]
    completed_count := 0
    failed_count := 0
    auto_created_tasks := [] }

theorem task_completed_unblocks_witness :
    ("t-a", { mkTask "t-a" 1 TaskStatus.Blocked with
              blocked_by := ["t-b"] }) ∈ c5State.tasks ∧
    ("t-a", unblockPass "t-b"
        { mkTask "t-a" 1 TaskStatus.Blocked with blocked_by := ["t-b"] })
      ∈ (handle_event ⟨3, true⟩ c5State
          (WorkerEvent.taskCompleted "t-b" 5)).tasks ∧
    (unblockPass "t-b"
        { mkTask "t-a" 1 TaskStatus.Blocked with
          blocked_by := ["t-b"] }).status = TaskStatus.Ready := by
  have h := task_completed_unblocks ⟨3, true⟩ c5State "t-b" 5
    ("t-a", { mkTask "t-a" 1 TaskStatus.Blocked with
              blocked_by := ["t-b"] })
    (by decide) (by decide) (by decide)
  exact ⟨by decide, h.1, h.2.2.1.mpr (by decide)⟩

/-! ### Auto-unblock (claims C9, C10) -/

theorem auto_created_mono_create (b c : String) (s : DroverState)
    (h : b ∈ s.auto_created_tasks) :
    b ∈ (create_unblock_task c s).auto_created_tasks := by
  unfold create_unblock_task
  by_cases hc : c ∈ s.auto_created_tasks
  · rw [if_pos hc]; exact h
  · rw [if_neg hc]; exact List.mem_cons_of_mem _ h

theorem auto_created_mono_fold (bs : List String) :
    ∀ (s : DroverState) (b : String), b ∈ s.auto_created_tasks →
    b ∈ (bs.foldl (fun st b' => create_unblock_task b' st)
          s).auto_created_tasks := by
  induction bs with
  | nil => intro s b h; exact h
  | cons c cs ih =>
    intro s b h
    rw [List.foldl_cons]
    exact ih _ b (auto_created_mono_create b c s h)

theorem auto_created_mono_event (cfg : DroverConfig) (e : WorkerEvent)
    (s : DroverState) (b : String) (h : b ∈ s.auto_created_tasks) :
    b ∈ (handle_event cfg s e).auto_created_tasks := by
  cases e with
  | taskCompleted id d => exact h
  | taskFailed id err r =>
    cases hl : List.lookup id s.tasks with
    | none => simp only [handle_event, hl]; exact h
    | some t => simp only [handle_event, hl]; exact h
  | taskBlocked id bs =>
    simp only [handle_event]
    by_cases hau : cfg.auto_unblock
    · rw [if_pos hau]
      exact auto_created_mono_fold bs _ b h
    · rw [if_neg hau]
      exact h
  | stalled d => exact h

/-- The number of remediation creations for the blocker id `b` while
processing an event list: a creation is the transition of `b` into the
`auto_created_tasks` set (exactly when `create_unblock_task` inserts the
remediation task). -/
def eventCreateCount (cfg : DroverConfig) (b : String) :
    List WorkerEvent → DroverState → Nat
  | [], _ => 0
  | e :: es, s =>
    (if b ∉ s.auto_created_tasks ∧
        b ∈ (handle_event cfg s e).auto_created_tasks then 1 else 0)
      + eventCreateCount cfg b es (handle_event cfg s e)

theorem eventCreateCount_zero (cfg : DroverConfig) (b : String) :
    ∀ (es : List WorkerEvent) (s : DroverState),
    b ∈ s.auto_created_tasks → eventCreateCount cfg b es s = 0 := by
  intro es
  induction es with
  | nil => intro s _; rfl
  | cons e es ih =>
    intro s h
    simp only [eventCreateCount]
    rw [if_neg (fun hc => hc.1 h),
      ih _ (auto_created_mono_event cfg e s b h)]

theorem lookup_create_unblock (b : String) (s : DroverState)
    (h : b ∉ s.auto_created_tasks) :
    List.lookup (unblockTaskId b) (create_unblock_task b s).tasks
      = some (unblockTask b) := by
  unfold create_unblock_task
  rw [if_neg h]
  simp [insertTask, List.lookup]

/-- C9: across any processed event sequence at most one remediation task
is created for a given blocker id (the `auto_created_tasks` guard), and
the created task is `Ready` with priority 100 and the `drover-auto`
label. -/
theorem auto_unblock_at_most_once (cfg : DroverConfig) (b : String)
    (es : List WorkerEvent) (s : DroverState)
    (hnot : b ∉ s.auto_created_tasks) :
    eventCreateCount cfg b es s ≤ 1 ∧
    (unblockTask b).status = TaskStatus.Ready ∧
    (unblockTask b).priority = 100 ∧
    (unblockTask b).labels = ["drover-auto"] ∧
    List.lookup (unblockTaskId b) (create_unblock_task b s).tasks
      = some (unblockTask b) := by
  refine ⟨?_, rfl, rfl, rfl, lookup_create_unblock b s hnot⟩
  clear hnot
  induction es generalizing s with
  | nil => simp [eventCreateCount]
  | cons e es ih =>
    simp only [eventCreateCount]
    by_cases hb : b ∈ (handle_event cfg s e).auto_created_tasks
    · rw [eventCreateCount_zero cfg b es _ hb]
      split <;> omega
    · rw [if_neg (fun hc => hb hc.2)]
      simpa using ih (handle_event cfg s e)

/-- The empty run state used by the C9 witness. -/
def c9Empty : DroverState :=
  { tasks := []
    completed_count := 0
    failed_count := 0
    auto_created_tasks := [] }

theorem auto_unblock_at_most_once_witness :
    ("bd-1" ∉ c9Empty.auto_created_tasks) ∧
    List.lookup (unblockTaskId "bd-1")
        (create_unblock_task "bd-1" c9Empty).tasks
      = some (unblockTask "bd-1") ∧
    eventCreateCount ⟨3, true⟩ "bd-1"
      [WorkerEvent.taskBlocked "x" ["bd-1"],
       WorkerEvent.taskBlocked "y" ["bd-1"]] c9Empty ≤ 1 := by
  have h := auto_unblock_at_most_once ⟨3, true⟩ "bd-1"
    [WorkerEvent.taskBlocked "x" ["bd-1"],
     WorkerEvent.taskBlocked "y" ["bd-1"]] c9Empty (by decide)
  exact ⟨by decide, h.2.2.2.2, h.1⟩

/-- C10: the remediation task id is `drover-fix-` plus the first
`min(8, length)` characters of the blocker id; two distinct blockers
sharing their first 8 characters produce the same task id, and the
second creation replaces the first remediation task in the canonical
map, so task-id uniqueness is not preserved for such inputs. -/
theorem unblock_task_id_collision (b1 b2 : String) (s : DroverState)
    (hne : b1 ≠ b2) (hpre : b1.take 8 = b2.take 8)
    (h1 : b1 ∉ s.auto_created_tasks) (h2 : b2 ∉ s.auto_created_tasks) :
    unblockTaskId b1 = "drover-fix-" ++ b1.take 8 ∧
    unblockTaskId b1 = unblockTaskId b2 ∧
    List.lookup (unblockTaskId b1)
        (create_unblock_task b2 (create_unblock_task b1 s)).tasks
      = some (unblockTask b2) ∧
    unblockTask b2 ≠ unblockTask b1 := by
  have hid : unblockTaskId b1 = unblockTaskId b2 := by
    unfold unblockTaskId
    rw [hpre]
  refine ⟨rfl, hid, ?_, ?_⟩
  · have hs1auto : (create_unblock_task b1 s).auto_created_tasks
        = b1 :: s.auto_created_tasks := by
      unfold create_unblock_task
      rw [if_neg h1]
    have h2' : b2 ∉ (create_unblock_task b1 s).auto_created_tasks := by
      rw [hs1auto]
      intro hmem
      rcases List.mem_cons.mp hmem with he | hm
      · exact hne he.symm
      · exact h2 hm
    rw [hid]
    exact lookup_create_unblock b2 _ h2'
  · intro heq
    have htitle := congrArg Task.title heq
    simp only [unblockTask] at htitle
    have hd := congrArg String.data htitle
    rw [String.data_append, String.data_append] at hd
    have : b2.data = b1.data := List.append_cancel_left hd
    exact hne (String.ext this).symm

theorem unblock_task_id_collision_witness :
    ("bd-12345678a" : String) ≠ "bd-12345678b" ∧
    ("bd-12345678a" : String).take 8 = ("bd-12345678b" : String).take 8 ∧
    List.lookup (unblockTaskId "bd-12345678a")
        (create_unblock_task "bd-12345678b"
          (create_unblock_task "bd-12345678a" c9Empty)).tasks
      = some (unblockTask "bd-12345678b") ∧
    unblockTask "bd-12345678b" ≠ unblockTask "bd-12345678a" := by
  have h := unblock_task_id_collision "bd-12345678a" "bd-12345678b" c9Empty
    (by decide) (by decide) (by decide) (by decide)
  exact ⟨by decide, by decide, h.2.2.1, h.2.2.2⟩

end Drover
